import Mathlib

/-!
Verification of out-of-tree: kernel catalog merge, rootfs fallback resolution and exit status

A shallow embedding of `src/main.go`:

* `findFallback`            (main.go 24-35)
* `handleFallbacks`         (main.go 37-55)
* the merge loop of `main`  (main.go 285-289)
* the tail of `main`        (main.go 274-356): reading the kernel configs, resolution,
  dispatch and the exit status.

Slices are lists. `kcfg.Kernels` is updated in place by the source; here the current
contents of the slice are passed along explicitly.
-/

namespace OutOfTree

/-! ## Data model -/

/-- Modelled from the spec: `config.KernelInfo` is declared in the `config` package, which
is not among the sources. The spec lists distro identity, version, kernel release string,
path to the kernel image and path to the root filesystem image. `main.go` reads only
`DistroType` and `RootFS`. -/
structure KernelInfo where
  DistroType : Nat
  DistroRelease : String
  KernelRelease : String
  KernelPath : String
  RootFS : String
deriving DecidableEq

/-- Go's `<` on the characters of two strings: lexicographic, a proper prefix is smaller.
(Go compares bytes; on UTF-8 this is the order of the code points.) -/
def lessChars : List Char → List Char → Bool
  | _, [] => false
  | [], _ :: _ => true
  | a :: as, b :: bs => if a < b then true else if b < a then false else lessChars as bs

/-- Go's `a < b` on strings, as used in `k.RootFS < ki.RootFS` and in `ByRootFS.Less`. -/
def stringLess (a b : String) : Bool := lessChars a.data b.data

/-! ## findFallback and handleFallbacks -/

/-- The function `findFallback` (main.go 24-35). `fileExists` is the helper `exists` of
the repository (an `os.Stat` probe, not among the sources), `kernels` is the current
content of `kcfg.Kernels`. The named result `rootfs` is the empty string unless the loop
assigns it. -/
def findFallback (fileExists : String → Bool) (kernels : List KernelInfo)
    (ki : KernelInfo) : String :=
  match kernels with
  | [] => ""
  | k :: rest =>
    if !fileExists k.RootFS || k.DistroType != ki.DistroType then
      findFallback fileExists rest ki
    else if stringLess k.RootFS ki.RootFS then
      k.RootFS
    else
      findFallback fileExists rest ki

/-- The loop of `handleFallbacks` (main.go 40-54). At iteration `i` the slice
`kcfg.Kernels` holds `done ++ todo`: `done` are the `i` entries already visited (some of
them overwritten at line 51), `todo` the entries not yet visited, `k` its head.
`findFallback` is called on the whole current slice. The log line is not modelled. -/
def handleFallbacksLoop (fileExists : String → Bool) (done : List KernelInfo) :
    List KernelInfo → List KernelInfo
  | [] => done
  | k :: rest =>
    if !fileExists k.RootFS then
      let newRootFS := findFallback fileExists (done ++ k :: rest) k
      handleFallbacksLoop fileExists (done ++ [{ k with RootFS := newRootFS }]) rest
    else
      handleFallbacksLoop fileExists (done ++ [k]) rest

/-- The function `handleFallbacks` (main.go 37-55): sort the slice, then run the loop
over it. The result is the content of `kcfg.Kernels` when the function returns (the slice
shares its array with the caller, so this is what `main` goes on with). `sortFn` stands
for `sort.Sort(sort.Reverse(config.ByRootFS(..)))` of the Go library. -/
def handleFallbacks (sortFn : List KernelInfo → List KernelInfo)
    (fileExists : String → Bool) (kernels : List KernelInfo) : List KernelInfo :=
  handleFallbacksLoop fileExists [] (sortFn kernels)

/-- What `sort.Sort(sort.Reverse(config.ByRootFS(..)))` guarantees: the slice is
rearranged, and afterwards no entry has a smaller `RootFS` than a later entry.
`sort.Sort` is not stable, so nothing is said about entries with equal `RootFS`. -/
def SortsReverseByRootFS (sortFn : List KernelInfo → List KernelInfo) : Prop :=
  ∀ l, (sortFn l).Perm l ∧
    (sortFn l).Pairwise (fun a b => stringLess a.RootFS b.RootFS = false)

/-- One sort that meets `SortsReverseByRootFS`: insertion sort. It is used to evaluate
`handleFallbacks` on concrete catalogs; on a catalog whose paths are pairwise distinct
every sort that meets `SortsReverseByRootFS` returns the same slice
(`sort_eq_of_distinct_paths`). -/
def sortReverseByRootFS (kernels : List KernelInfo) : List KernelInfo :=
  List.insertionSort (fun a b => stringLess a.RootFS b.RootFS = false) kernels

/-- The comparison of snapshot resolution: what `handleFallbacks` would assign to `k` if
every lookup ran against the sorted slice `s` as it was right after the sort. -/
def resolveAgainst (fileExists : String → Bool) (s : List KernelInfo)
    (k : KernelInfo) : KernelInfo :=
  if fileExists k.RootFS then k else { k with RootFS := findFallback fileExists s k }

/-- Snapshot resolution of a whole catalog: sort, keep a copy, resolve every entry against
the copy. -/
def handleFallbacksSnapshot (sortFn : List KernelInfo → List KernelInfo)
    (fileExists : String → Bool) (kernels : List KernelInfo) : List KernelInfo :=
  (sortFn kernels).map (resolveAgainst fileExists (sortFn kernels))

/-! ## The merge loop of main -/

/-- The merge loop of `main` (main.go 285-289): every entry `nk` of the user catalog is
appended to `kcfg.Kernels` unless `hasKernel(nk, kcfg)` holds for the catalog as it is at
that moment. `hasKernel` is a helper of the repository that is not among the sources. -/
def mergeUserKernels (hasKernel : KernelInfo → List KernelInfo → Bool)
    (kcfg user : List KernelInfo) : List KernelInfo :=
  user.foldl (fun acc nk => if !hasKernel nk acc then acc ++ [nk] else acc) kcfg

/-- Modelled from the spec: `hasKernel` (a helper that is not among the sources). The spec
says an entry of a secondary source is added only if its identity key
(distro, version, release) is not already present. -/
def hasKernelByKey (nk : KernelInfo) (kcfg : List KernelInfo) : Bool :=
  kcfg.any (fun sk => sk.DistroType == nk.DistroType &&
    sk.DistroRelease == nk.DistroRelease && sk.KernelRelease == nk.KernelRelease)

/-! ## The tail of main -/

/-- What `main` does that can be observed, in order. -/
inductive Event where
  /-- The call `log.Println(err)` at line 276 -/
  | logPrintln (msg : String)
  /-- The call `log.Fatalln(err)`: prints and ends the process with status 1 -/
  | logFatalln (msg : String)
  /-- The call `handleFallbacks(kcfg)` at line 292, with the catalog it leaves -/
  | resolved (kernels : List KernelInfo)
  /-- A command handler of the switch at line 305 was called, with the catalog -/
  | dispatched (kernels : List KernelInfo)
  /-- The call `os.Exit(code)` -/
  | osExit (code : Nat)

/-- The exit status of a process whose observable events are `t`: `log.Fatalln` ends it
with 1, `os.Exit(c)` with `c`, a `main` that returns ends it with 0. -/
def exitStatus : List Event → Nat
  | [] => 0
  | Event.logFatalln _ :: _ => 1
  | Event.osExit c :: _ => c
  | _ :: rest => exitStatus rest

/-- The default of the `--threshold` flag (main.go 127: `Default("1.00")`). -/
def defaultThreshold : ℚ := 1

/-- The end of `main` (main.go 350-356). `err` is what the dispatched handler returned,
`rate` is `successRate(state)`, both taken as exact numbers. -/
def finish (err : Option String) (rate threshold : ℚ) : List Event :=
  match err with
  | some e => [Event.logFatalln e]
  | none => if rate < threshold then [Event.osExit 1] else []

/-- A result of `config.ReadKernelConfig`: the catalog and the error (Go returns both). -/
structure ReadResult where
  kcfg : List KernelInfo
  err : Option String

/-- Everything outside `main.go` that lines 274-356 depend on. -/
structure Env where
  /-- The result of `config.ReadKernelConfig(*kcfgPath)` -/
  mainRead : ReadResult
  /-- The value of `exists(*userKcfgPath)` -/
  userExists : Bool
  /-- The result of `config.ReadKernelConfig(*userKcfgPath)` -/
  userRead : ReadResult
  /-- The error of `openDatabase(*dbPath)` -/
  dbErr : Option String
  /-- The error returned by the handler the switch dispatches to, given the catalog -/
  handlerErr : List KernelInfo → Option String
  /-- The value of `successRate(state)` after the handler returned -/
  rate : ℚ
  /-- The value of `*threshold` -/
  threshold : ℚ

/-- Lines 292-356 of `main`, entered with the merged catalog `kcfg`. -/
def mainResolveAndDispatch (sortFn : List KernelInfo → List KernelInfo)
    (fileExists : String → Bool) (env : Env) (kcfg : List KernelInfo) : List Event :=
  let kernels := handleFallbacks sortFn fileExists kcfg
  Event.resolved kernels ::
    (match env.dbErr with
     | some e => [Event.logFatalln e]
     | none => Event.dispatched kernels ::
         finish (env.handlerErr kernels) env.rate env.threshold)

/-- Lines 274-356 of `main`. A failed read of the main kernels config is printed and
`main` goes on with the catalog `ReadKernelConfig` returned; the user kernels config is
read only if the file exists, and a failed read of it is fatal. -/
def mainFromConfig (sortFn : List KernelInfo → List KernelInfo)
    (fileExists : String → Bool) (hasKernel : KernelInfo → List KernelInfo → Bool)
    (env : Env) : List Event :=
  let printed : List Event :=
    match env.mainRead.err with
    | some e => [Event.logPrintln e]
    | none => []
  if env.userExists then
    match env.userRead.err with
    | some e => printed ++ [Event.logFatalln e]
    | none =>
      printed ++ mainResolveAndDispatch sortFn fileExists env
        (mergeUserKernels hasKernel env.mainRead.kcfg env.userRead.kcfg)
  else
    printed ++ mainResolveAndDispatch sortFn fileExists env env.mainRead.kcfg

/-! ## Concrete catalogs -/

/-- The file-existence probe of an environment in which exactly the files `present`
exist. -/
def existsIn (present : List String) (path : String) : Bool := present.contains path

/-- Distro A, version 3, rootfs absent. -/
def a3 : KernelInfo := ⟨0, "3", "3.0-generic", "/k/a3", "a3.img"⟩
/-- Distro A, version 2, rootfs present. -/
def a2 : KernelInfo := ⟨0, "2", "2.0-generic", "/k/a2", "a2.img"⟩
/-- Distro A, version 1, rootfs present. -/
def a1 : KernelInfo := ⟨0, "1", "1.0-generic", "/k/a1", "a1.img"⟩
/-- Distro B, version 1, rootfs absent. -/
def b1 : KernelInfo := ⟨1, "1", "1.0-generic", "/k/b1", "b1.img"⟩

/-- The catalog of the spec's fallback example. -/
def witnessCatalog : List KernelInfo := [a3, a2, a1, b1]

/-- The files present in the spec's fallback example. -/
def witnessFiles : List String := ["a2.img", "a1.img"]

/-- Version 3 of distro A; its rootfs `a.img` is absent. -/
def v3 : KernelInfo := ⟨0, "3", "3.0-generic", "/k/v3", "a.img"⟩
/-- Version 2 of distro A; its rootfs `b.img` is present. -/
def v2 : KernelInfo := ⟨0, "2", "2.0-generic", "/k/v2", "b.img"⟩
/-- A catalog in which the order of the rootfs paths is not the order of the versions. -/
def versionCatalog : List KernelInfo := [v3, v2]
/-- The files present next to `versionCatalog`. -/
def versionFiles : List String := ["b.img"]

/-- An entry of distro A whose `RootFS` is the empty path. -/
def e0 : KernelInfo := ⟨0, "0", "0.0-generic", "/k/e0", ""⟩
/-- A catalog in descending `RootFS` order whose last entry has the empty path. -/
def emptyPathCatalog : List KernelInfo := [a2, a1, e0]
/-- A catalog loaded in ascending `RootFS` order; both files are present. -/
def ascendingCatalog : List KernelInfo := [a1, a2]

/-- Whether `handleFallbacks` was reached. -/
def reachesResolution (t : List Event) : Bool :=
  t.any (fun ev => match ev with
    | Event.resolved _ => true
    | _ => false)

/-- Whether a command handler was dispatched. -/
def reachesDispatch (t : List Event) : Bool :=
  t.any (fun ev => match ev with
    | Event.dispatched _ => true
    | _ => false)

/-- An environment in which reading the main kernels config fails, there is no user
kernels config, the database opens and the handler succeeds with rate 1. -/
def brokenMainConfigEnv : Env :=
  { mainRead := ⟨[], some "open kernels.toml: no such file or directory"⟩
    userExists := false
    userRead := ⟨[], none⟩
    dbErr := none
    handlerErr := fun _ => none
    rate := 1
    threshold := defaultThreshold }

/-- Distro A, version 4. -/
def a4 : KernelInfo := ⟨0, "4", "4.0-generic", "/k/a4", "a4.img"⟩

/-- A user catalog: `a2` is already in `witnessCatalog`, `a4` is new, and it comes
twice. -/
def userCatalog : List KernelInfo := [a2, a4, a4]

/-- An environment in which reading the main kernels config fails after the entry `a2` was
read, the user kernels config exists and holds `userCatalog`, the database opens and the
handler succeeds with rate 1. -/
def partialMainConfigEnv : Env :=
  { mainRead := ⟨[a2], some "kernels.toml: unexpected end of file"⟩
    userExists := true
    userRead := ⟨userCatalog, none⟩
    dbErr := none
    handlerErr := fun _ => none
    rate := 1
    threshold := defaultThreshold }

/-! ## Definitions used in the proofs -/

/-- The test `findFallback` applies to an entry `k` when it looks for a fallback of `ki`
(lines 26 and 29). -/
def candidate (fileExists : String → Bool) (ki k : KernelInfo) : Bool :=
  fileExists k.RootFS && (k.DistroType == ki.DistroType) && stringLess k.RootFS ki.RootFS

/-! # Theorems -/

/-! ## The order of Go strings -/

theorem lessChars_iff (a b : List Char) : lessChars a b = true ↔ a < b := by
  induction a generalizing b with
  | nil =>
    cases b with
    | nil => simp [lessChars]
    | cons y ys => simpa [lessChars] using List.nil_lt_cons y ys
  | cons x xs ih =>
    cases b with
    | nil => simp [lessChars]
    | cons y ys =>
      simp only [lessChars]
      split_ifs with h1 h2
      · exact iff_of_true rfl (List.Lex.rel h1)
      · refine iff_of_false (by simp) ?_
        intro h
        cases h with
        | cons h => exact lt_irrefl _ h2
        | rel h => exact lt_asymm h h2
      · have hxy : x = y := le_antisymm (not_lt.mp h2) (not_lt.mp h1)
        subst hxy
        exact (ih ys).trans List.Lex.cons_iff.symm

/-- The comparison `stringLess` is the strict order of `String`. -/
theorem stringLess_iff (a b : String) : stringLess a b = true ↔ a < b := by
  rw [String.lt_iff_toList_lt]; exact lessChars_iff _ _

theorem stringLess_eq_false_iff (a b : String) : stringLess a b = false ↔ b ≤ a := by
  rw [← not_lt, ← stringLess_iff]; simp

/-- Nothing is below the empty string. -/
theorem stringLess_empty (a : String) : stringLess a "" = false := by
  cases h : a.data <;> simp [stringLess, lessChars, h]

theorem stringLess_irrefl (a : String) : stringLess a a = false := by
  rw [stringLess_eq_false_iff]

/-! ## findFallback as a search for the first candidate -/


theorem candidate_iff (fileExists : String → Bool) (ki k : KernelInfo) :
    candidate fileExists ki k = true ↔
      fileExists k.RootFS = true ∧ k.DistroType = ki.DistroType ∧ k.RootFS < ki.RootFS := by
  simp [candidate, stringLess_iff, and_assoc]

theorem findFallback_eq_find (fileExists : String → Bool) (l : List KernelInfo)
    (ki : KernelInfo) :
    findFallback fileExists l ki =
      ((l.find? (candidate fileExists ki)).map (fun k => k.RootFS)).getD "" := by
  induction l with
  | nil => rfl
  | cons k rest ih =>
    unfold findFallback
    by_cases h1 : fileExists k.RootFS = true <;>
    by_cases h2 : k.DistroType = ki.DistroType <;>
    by_cases h3 : stringLess k.RootFS ki.RootFS = true <;>
    simp [candidate, h1, h2, h3, ih, List.find?_cons]

theorem find_mono {α : Type} (p q : α → Bool) (h : ∀ x, q x = true → p x = true) :
    ∀ l : List α, (l.find? p = none → l.find? q = none) ∧
      (∀ m, l.find? p = some m → q m = true → l.find? q = some m) := by
  intro l
  induction l with
  | nil => simp
  | cons x xs ih =>
    by_cases hp : p x = true
    · refine ⟨by simp [List.find?_cons, hp], ?_⟩
      intro m hm hq
      simp only [List.find?_cons, hp, Option.some.injEq] at hm
      subst hm
      simp [List.find?_cons, hq]
    · have hq : q x = false := by
        cases hqx : q x
        · rfl
        · exact absurd (h x hqx) hp
      have hp' : p x = false := by simpa using hp
      simpa [List.find?_cons, hp', hq] using ih

/-! ## Lookups against the partly overwritten slice -/

/-- Entries that are not below `ki` are skipped by `findFallback`. -/
theorem findFallback_skip_front (fileExists : String → Bool) (pre rest : List KernelInfo)
    (ki : KernelInfo) (hpre : ∀ p ∈ pre, stringLess p.RootFS ki.RootFS = false) :
    findFallback fileExists (pre ++ rest) ki = findFallback fileExists rest ki := by
  induction pre with
  | nil => rfl
  | cons p ps ih =>
    have hp : stringLess p.RootFS ki.RootFS = false := hpre p (List.mem_cons_self _ _)
    have hps : ∀ q ∈ ps, stringLess q.RootFS ki.RootFS = false :=
      fun q hq => hpre q (List.mem_cons_of_mem _ hq)
    rw [List.cons_append, findFallback]
    simp [hp, ih hps]

/-- If an entry `p` that is not below `k` has been resolved against `s` and its new path
now passes the test for `k`, then that path is what a lookup for `k` in `s` returns. -/
theorem findFallback_of_resolved_candidate (fileExists : String → Bool)
    (s : List KernelInfo) (p k : KernelInfo)
    (hpk : stringLess p.RootFS k.RootFS = false)
    (hc : candidate fileExists k (resolveAgainst fileExists s p) = true) :
    findFallback fileExists s k = (resolveAgainst fileExists s p).RootFS := by
  by_cases hfe : fileExists p.RootFS = true
  · simp [resolveAgainst, hfe, candidate, hpk] at hc
  · have hfe' : fileExists p.RootFS = false := by simpa using hfe
    simp only [resolveAgainst, hfe', Bool.false_eq_true, if_false] at hc ⊢
    rw [candidate_iff] at hc
    obtain ⟨hex, hd, hlt⟩ := hc
    simp only at hex hd hlt
    have hmono : ∀ x, candidate fileExists k x = true → candidate fileExists p x = true := by
      intro x hx
      rw [candidate_iff] at hx ⊢
      refine ⟨hx.1, hx.2.1.trans hd.symm, lt_of_lt_of_le hx.2.2 ?_⟩
      exact (stringLess_eq_false_iff _ _).mp hpk
    have hm := find_mono (candidate fileExists p) (candidate fileExists k) hmono s
    rw [findFallback_eq_find fileExists s p] at hex hlt ⊢
    rw [findFallback_eq_find fileExists s k]
    cases hfind : s.find? (candidate fileExists p) with
    | none => simp [hm.1 hfind]
    | some m =>
      rw [hfind] at hex hlt
      simp only [Option.map_some', Option.getD_some] at hex hlt ⊢
      have hpm : candidate fileExists p m = true := List.find?_some hfind
      rw [candidate_iff] at hpm
      have hkm : candidate fileExists k m = true := by
        rw [candidate_iff]; exact ⟨hpm.1, hpm.2.1.trans hd, hlt⟩
      simp [hm.2 m hfind hkm]

/-- A lookup for `k` in the slice whose first entries have been resolved gives what a
lookup in the untouched slice gives. -/
theorem findFallback_resolved_front (fileExists : String → Bool) (s : List KernelInfo)
    (k : KernelInfo) (rest : List KernelInfo)
    (hs : findFallback fileExists s k = findFallback fileExists rest k) :
    ∀ pre : List KernelInfo, (∀ p ∈ pre, stringLess p.RootFS k.RootFS = false) →
      findFallback fileExists (pre.map (resolveAgainst fileExists s) ++ rest) k =
        findFallback fileExists s k := by
  intro pre
  induction pre with
  | nil => intro _; simpa using hs.symm
  | cons p ps ih =>
    intro hpre
    have hp : stringLess p.RootFS k.RootFS = false := hpre p (List.mem_cons_self _ _)
    have hps : ∀ q ∈ ps, stringLess q.RootFS k.RootFS = false :=
      fun q hq => hpre q (List.mem_cons_of_mem _ hq)
    by_cases hc : candidate fileExists k (resolveAgainst fileExists s p) = true
    · have hres := findFallback_of_resolved_candidate fileExists s p k hp hc
      rw [candidate_iff] at hc
      rw [List.map_cons, List.cons_append, findFallback]
      simp [hc.1, hc.2.1, (stringLess_iff _ _).mpr hc.2.2, hres]
    · have hc' : candidate fileExists k (resolveAgainst fileExists s p) = false := by
        simpa using hc
      rw [List.map_cons, List.cons_append, findFallback_eq_find, List.find?_cons, hc',
        ← findFallback_eq_find]
      exact ih hps

/-- The loop of `handleFallbacks`, started on a sorted slice whose visited part has been
resolved against the snapshot, ends with the snapshot resolution of the whole slice. -/
theorem handleFallbacksLoop_eq_map (fileExists : String → Bool) (s : List KernelInfo)
    (hs : s.Pairwise (fun a b => stringLess a.RootFS b.RootFS = false)) :
    ∀ (todo pre : List KernelInfo), s = pre ++ todo →
      handleFallbacksLoop fileExists (pre.map (resolveAgainst fileExists s)) todo =
        s.map (resolveAgainst fileExists s) := by
  intro todo
  induction todo with
  | nil => intro pre h; simp [handleFallbacksLoop, h]
  | cons k rest ih =>
    intro pre h
    have hpre : ∀ p ∈ pre, stringLess p.RootFS k.RootFS = false := by
      rw [h, List.pairwise_append] at hs
      exact fun p hp => hs.2.2 p hp k (List.mem_cons_self _ _)
    have hnext : s = (pre ++ [k]) ++ rest := by simp [h]
    have hIH := ih (pre ++ [k]) hnext
    rw [List.map_append, List.map_singleton] at hIH
    by_cases hfe : fileExists k.RootFS = true
    · simp only [handleFallbacksLoop, hfe, Bool.not_true, Bool.false_eq_true, if_false]
      simpa [resolveAgainst, hfe] using hIH
    · have hfe' : fileExists k.RootFS = false := by simpa using hfe
      have hskip : findFallback fileExists s k = findFallback fileExists (k :: rest) k := by
        rw [h]; exact findFallback_skip_front fileExists pre (k :: rest) k hpre
      have hfind := findFallback_resolved_front fileExists s k (k :: rest) hskip pre hpre
      simp only [handleFallbacksLoop, hfe', Bool.not_false, if_true, hfind]
      simpa [resolveAgainst, hfe'] using hIH

/-! ## The sort -/

theorem sortReverseByRootFS_spec : SortsReverseByRootFS sortReverseByRootFS := by
  intro l
  haveI : IsTotal KernelInfo (fun a b => stringLess a.RootFS b.RootFS = false) :=
    ⟨fun a b => by
      simp only [stringLess_eq_false_iff]
      exact le_total b.RootFS a.RootFS⟩
  haveI : IsTrans KernelInfo (fun a b => stringLess a.RootFS b.RootFS = false) :=
    ⟨fun a b c hab hbc => by
      simp only [stringLess_eq_false_iff] at hab hbc ⊢
      exact le_trans hbc hab⟩
  exact ⟨List.perm_insertionSort _ l, List.sorted_insertionSort _ l⟩

/-! ## Facts about the loop that need no order -/

/-- What `findFallback` returns is the path of an existing file or the empty string. -/
theorem findFallback_exists_or_empty (fileExists : String → Bool) (l : List KernelInfo)
    (ki : KernelInfo) :
    fileExists (findFallback fileExists l ki) = true ∨ findFallback fileExists l ki = "" := by
  rw [findFallback_eq_find]
  cases hfind : l.find? (candidate fileExists ki) with
  | none => right; rfl
  | some m =>
    left
    have hm : candidate fileExists ki m = true := List.find?_some hfind
    rw [candidate_iff] at hm
    simpa using hm.1

/-- A lookup for an entry with the empty path finds nothing. -/
theorem findFallback_of_empty (fileExists : String → Bool) (l : List KernelInfo)
    (ki : KernelInfo) (h : ki.RootFS = "") : findFallback fileExists l ki = "" := by
  have := findFallback_skip_front fileExists l [] ki
    (fun p _ => by rw [h]; exact stringLess_empty _)
  simpa [findFallback] using this

theorem handleFallbacksLoop_exists_or_empty (fileExists : String → Bool) :
    ∀ (todo done : List KernelInfo),
      (∀ k ∈ done, fileExists k.RootFS = true ∨ k.RootFS = "") →
      ∀ k ∈ handleFallbacksLoop fileExists done todo,
        fileExists k.RootFS = true ∨ k.RootFS = "" := by
  intro todo
  induction todo with
  | nil => intro done hdone k hk; exact hdone k (by simpa [handleFallbacksLoop] using hk)
  | cons x rest ih =>
    intro done hdone k hk
    by_cases hfe : fileExists x.RootFS = true
    · simp only [handleFallbacksLoop, hfe, Bool.not_true, Bool.false_eq_true, if_false] at hk
      refine ih (done ++ [x]) ?_ k hk
      intro y hy
      rcases List.mem_append.mp hy with hy | hy
      · exact hdone y hy
      · rw [List.mem_singleton] at hy; subst hy; exact Or.inl hfe
    · have hfe' : fileExists x.RootFS = false := by simpa using hfe
      simp only [handleFallbacksLoop, hfe', Bool.not_false, if_true] at hk
      refine ih _ ?_ k hk
      intro y hy
      rcases List.mem_append.mp hy with hy | hy
      · exact hdone y hy
      · rw [List.mem_singleton] at hy; subst hy
        exact findFallback_exists_or_empty fileExists _ x

/-- On a slice whose entries all have an existing or an empty path the loop changes
nothing. -/
theorem handleFallbacksLoop_of_settled (fileExists : String → Bool) :
    ∀ (todo done : List KernelInfo),
      (∀ k ∈ todo, fileExists k.RootFS = true ∨ k.RootFS = "") →
      handleFallbacksLoop fileExists done todo = done ++ todo := by
  intro todo
  induction todo with
  | nil => intro done _; simp [handleFallbacksLoop]
  | cons x rest ih =>
    intro done h
    have hrest : ∀ k ∈ rest, fileExists k.RootFS = true ∨ k.RootFS = "" :=
      fun k hk => h k (List.mem_cons_of_mem _ hk)
    by_cases hfe : fileExists x.RootFS = true
    · simp only [handleFallbacksLoop, hfe, Bool.not_true, Bool.false_eq_true, if_false]
      rw [ih (done ++ [x]) hrest]; simp
    · have hfe' : fileExists x.RootFS = false := by simpa using hfe
      have hx : x.RootFS = "" := (h x (List.mem_cons_self _ _)).resolve_left hfe
      have hsame : ({ x with RootFS := findFallback fileExists (done ++ x :: rest) x } :
          KernelInfo) = x := by
        rw [findFallback_of_empty fileExists _ x hx, ← hx]
      simp only [handleFallbacksLoop, hfe', Bool.not_false, if_true, hsame]
      rw [ih (done ++ [x]) hrest]; simp

/-- On a descending slice the loop computes the snapshot resolution. -/
theorem handleFallbacksLoop_sorted (fileExists : String → Bool) (s : List KernelInfo)
    (hs : s.Pairwise (fun a b => stringLess a.RootFS b.RootFS = false)) :
    handleFallbacksLoop fileExists [] s = s.map (resolveAgainst fileExists s) := by
  simpa using handleFallbacksLoop_eq_map fileExists s hs s [] rfl

theorem forall2_map_self {α β : Type} (R : α → β → Prop) (f : α → β) :
    ∀ l : List α, (∀ x ∈ l, R x (f x)) → List.Forall₂ R l (l.map f) := by
  intro l
  induction l with
  | nil => intro _; exact List.Forall₂.nil
  | cons x xs ih =>
    intro h
    exact List.Forall₂.cons (h x (List.mem_cons_self _ _))
      (ih (fun y hy => h y (List.mem_cons_of_mem _ hy)))

/-! ## findFallback on a descending slice -/

/-- On a descending slice the first candidate is the greatest one. -/
theorem findFallback_greatest (fileExists : String → Bool) (s : List KernelInfo)
    (hs : s.Pairwise (fun a b => stringLess a.RootFS b.RootFS = false)) (ki : KernelInfo)
    (hex : ∃ k ∈ s, candidate fileExists ki k = true) :
    ∃ m ∈ s, candidate fileExists ki m = true ∧ findFallback fileExists s ki = m.RootFS ∧
      ∀ k ∈ s, candidate fileExists ki k = true → k.RootFS ≤ m.RootFS := by
  obtain ⟨k0, hk0, hc0⟩ := hex
  cases hfind : s.find? (candidate fileExists ki) with
  | none =>
    have := List.find?_eq_none.mp hfind k0 hk0
    exact absurd hc0 this
  | some m =>
    have hsplit := List.find?_eq_some.mp hfind
    obtain ⟨hcm, l1, l2, hl, hbefore⟩ := hsplit
    refine ⟨m, List.mem_of_find?_eq_some hfind, hcm, ?_, ?_⟩
    · rw [findFallback_eq_find, hfind]; rfl
    · intro k hk hck
      rw [hl] at hk hs
      rcases List.mem_append.mp hk with hk | hk
      · have := hbefore k hk
        simp [hck] at this
      · rcases List.mem_cons.mp hk with hk | hk
        · rw [hk]
        · have hp := (List.pairwise_append.mp hs).2.1
          exact (stringLess_eq_false_iff _ _).mp (List.rel_of_pairwise_cons hp hk)

theorem findFallback_of_no_candidate (fileExists : String → Bool) (s : List KernelInfo)
    (ki : KernelInfo) (h : ¬ ∃ k ∈ s, candidate fileExists ki k = true) :
    findFallback fileExists s ki = "" := by
  rw [findFallback_eq_find]
  have : s.find? (candidate fileExists ki) = none := by
    rw [List.find?_eq_none]
    intro x hx hc
    exact h ⟨x, hx, hc⟩
  rw [this]; rfl


/-- Every entry that leaves `handleFallbacks` has an existing or an empty path. -/
theorem handleFallbacks_exists_or_empty (sortFn : List KernelInfo → List KernelInfo)
    (fileExists : String → Bool) (kernels : List KernelInfo) :
    ∀ k ∈ handleFallbacks sortFn fileExists kernels,
      fileExists k.RootFS = true ∨ k.RootFS = "" :=
  handleFallbacksLoop_exists_or_empty fileExists (sortFn kernels) []
    (fun _ h => absurd h (List.not_mem_nil _))

/-! ## Uniqueness of the sorted slice -/

/-- Two rearrangements of one another that are both descending and have pairwise distinct
paths are equal. -/
theorem descending_unique (s t : List KernelInfo) (hperm : s.Perm t)
    (hs : s.Pairwise (fun a b => b.RootFS ≤ a.RootFS))
    (ht : t.Pairwise (fun a b => b.RootFS ≤ a.RootFS))
    (hne : t.Pairwise (fun a b => a.RootFS ≠ b.RootFS)) : s = t := by
  have hne' : s.Pairwise (fun a b => a.RootFS ≠ b.RootFS) :=
    (hperm.pairwise_iff (fun {a b} (h : a.RootFS ≠ b.RootFS) => h.symm)).mpr hne
  have hs' : s.Pairwise (fun a b => b.RootFS < a.RootFS) :=
    (hs.and hne').imp (fun h => lt_of_le_of_ne h.1 h.2.symm)
  have ht' : t.Pairwise (fun a b => b.RootFS < a.RootFS) :=
    (ht.and hne).imp (fun h => lt_of_le_of_ne h.1 h.2.symm)
  haveI : IsAntisymm KernelInfo (fun a b => b.RootFS < a.RootFS) :=
    ⟨fun a b hab hba => absurd hab (lt_asymm hba)⟩
  exact List.eq_of_perm_of_sorted hperm hs' ht'

/-- On a catalog with pairwise distinct paths every sort that meets
`SortsReverseByRootFS` returns what the insertion sort returns. -/
theorem sort_eq_of_distinct_paths (sortFn : List KernelInfo → List KernelInfo)
    (hs : SortsReverseByRootFS sortFn) (kernels : List KernelInfo)
    (hne : kernels.Pairwise (fun a b => a.RootFS ≠ b.RootFS)) :
    sortFn kernels = sortReverseByRootFS kernels := by
  obtain ⟨hp1, hs1⟩ := hs kernels
  obtain ⟨hp2, hs2⟩ := sortReverseByRootFS_spec kernels
  have hne2 : (sortReverseByRootFS kernels).Pairwise (fun a b => a.RootFS ≠ b.RootFS) :=
    (hp2.pairwise_iff (fun {a b} (h : a.RootFS ≠ b.RootFS) => h.symm)).mpr hne
  exact descending_unique _ _ (hp1.trans hp2.symm)
    (hs1.imp (fun h => (stringLess_eq_false_iff _ _).mp h))
    (hs2.imp (fun h => (stringLess_eq_false_iff _ _).mp h)) hne2

/-! ## Claims about findFallback and handleFallbacks -/

/-- C1, as written, fails: `findFallback` compares `RootFS` paths, never versions. In the
catalog `[v3, v2]` the entry `v3` (version 3, rootfs `a.img`, absent) has the same distro
as `v2` (version 2, rootfs `b.img`, present) and `v2` is the one entry with a lower version
and a present rootfs, yet `v3` does not get the rootfs of `v2`: `b.img` is not below
`a.img`, so `v3` is left with the empty path. -/
theorem c1_version_counterexample :
    ¬ (∀ e ∈ versionCatalog, existsIn versionFiles e.RootFS = false →
        ∀ m ∈ versionCatalog,
          (existsIn versionFiles m.RootFS = true ∧ m.DistroType = e.DistroType ∧
            stringLess m.DistroRelease e.DistroRelease = true) →
          (∀ k ∈ versionCatalog, existsIn versionFiles k.RootFS = true →
            k.DistroType = e.DistroType → stringLess k.DistroRelease e.DistroRelease = true →
            stringLess m.DistroRelease k.DistroRelease = false) →
          ({ e with RootFS := m.RootFS } : KernelInfo) ∈
            handleFallbacks sortReverseByRootFS (existsIn versionFiles) versionCatalog) := by
  intro h
  have h1 := h v3 (by decide) (by decide) v2 (by decide) (by decide) (by decide)
  revert h1
  decide

/-- C1, amended: after `handleFallbacks` an entry `e` with an absent rootfs for which some
entry of the same distro has a present rootfs with a path below `e.RootFS` carries the
greatest such path; every other field of `e` is kept. The entries of the sorted catalog
and of the result correspond position by position, and the sorted catalog is a
rearrangement of the input. In the catalog of the spec's example A@3 gets the rootfs of
A@2. -/
theorem c1_fallback_greatest_lower_path (sortFn : List KernelInfo → List KernelInfo)
    (hs : SortsReverseByRootFS sortFn) (fileExists : String → Bool)
    (kernels : List KernelInfo) :
    (sortFn kernels).Perm kernels ∧
    List.Forall₂
      (fun e o => fileExists e.RootFS = false →
        (∃ k ∈ kernels, fileExists k.RootFS = true ∧ k.DistroType = e.DistroType ∧
          k.RootFS < e.RootFS) →
        ∃ m ∈ kernels, fileExists m.RootFS = true ∧ m.DistroType = e.DistroType ∧
          m.RootFS < e.RootFS ∧
          (∀ k ∈ kernels, fileExists k.RootFS = true → k.DistroType = e.DistroType →
            k.RootFS < e.RootFS → k.RootFS ≤ m.RootFS) ∧
          o = { e with RootFS := m.RootFS })
      (sortFn kernels) (handleFallbacks sortFn fileExists kernels) ∧
    ({ a3 with RootFS := a2.RootFS } : KernelInfo) ∈
      handleFallbacks sortReverseByRootFS (existsIn witnessFiles) witnessCatalog := by
  obtain ⟨hperm, hsorted⟩ := hs kernels
  refine ⟨hperm, ?_, by decide⟩
  rw [handleFallbacks, handleFallbacksLoop_sorted fileExists _ hsorted]
  apply forall2_map_self
  intro e _ hfe hex
  have hex' : ∃ k ∈ sortFn kernels, candidate fileExists e k = true := by
    obtain ⟨k, hk, hc⟩ := hex
    exact ⟨k, hperm.mem_iff.mpr hk, (candidate_iff _ _ _).mpr hc⟩
  obtain ⟨m, hm, hcm, hres, hmax⟩ := findFallback_greatest fileExists _ hsorted e hex'
  rw [candidate_iff] at hcm
  refine ⟨m, hperm.mem_iff.mp hm, hcm.1, hcm.2.1, hcm.2.2, ?_, ?_⟩
  · intro k hk h1 h2 h3
    exact hmax k (hperm.mem_iff.mpr hk) ((candidate_iff _ _ _).mpr ⟨h1, h2, h3⟩)
  · simp [resolveAgainst, hfe, hres]

/-- The amended C1 at the insertion sort and the catalog of the spec's example. -/
theorem c1_fallback_greatest_lower_path_witness :
    SortsReverseByRootFS sortReverseByRootFS ∧
    (sortReverseByRootFS witnessCatalog).Perm witnessCatalog ∧
    List.Forall₂
      (fun e o => existsIn witnessFiles e.RootFS = false →
        (∃ k ∈ witnessCatalog, existsIn witnessFiles k.RootFS = true ∧
          k.DistroType = e.DistroType ∧ k.RootFS < e.RootFS) →
        ∃ m ∈ witnessCatalog, existsIn witnessFiles m.RootFS = true ∧
          m.DistroType = e.DistroType ∧ m.RootFS < e.RootFS ∧
          (∀ k ∈ witnessCatalog, existsIn witnessFiles k.RootFS = true →
            k.DistroType = e.DistroType → k.RootFS < e.RootFS → k.RootFS ≤ m.RootFS) ∧
          o = { e with RootFS := m.RootFS })
      (sortReverseByRootFS witnessCatalog)
      (handleFallbacks sortReverseByRootFS (existsIn witnessFiles) witnessCatalog) ∧
    ({ a3 with RootFS := a2.RootFS } : KernelInfo) ∈
      handleFallbacks sortReverseByRootFS (existsIn witnessFiles) witnessCatalog :=
  ⟨sortReverseByRootFS_spec,
    c1_fallback_greatest_lower_path sortReverseByRootFS sortReverseByRootFS_spec
      (existsIn witnessFiles) witnessCatalog⟩

/-- C4: after `handleFallbacks`, for every catalog, every file-existence predicate (and
whatever the sort did), every entry has a `RootFS` whose file exists or the empty
`RootFS`. -/
theorem c4_exists_or_empty (sortFn : List KernelInfo → List KernelInfo)
    (fileExists : String → Bool) (kernels : List KernelInfo) :
    ∀ k ∈ handleFallbacks sortFn fileExists kernels,
      fileExists k.RootFS = true ∨ k.RootFS = "" :=
  handleFallbacksLoop_exists_or_empty fileExists (sortFn kernels) []
    (fun _ h => absurd h (List.not_mem_nil _))

/-- C4 at the catalog of the spec's example: B@1 leaves with the empty path. -/
theorem c4_exists_or_empty_witness :
    ({ b1 with RootFS := "" } : KernelInfo) ∈
      handleFallbacks sortReverseByRootFS (existsIn witnessFiles) witnessCatalog ∧
    (existsIn witnessFiles ({ b1 with RootFS := "" } : KernelInfo).RootFS = true ∨
      ({ b1 with RootFS := "" } : KernelInfo).RootFS = "") :=
  ⟨by decide,
    c4_exists_or_empty sortReverseByRootFS (existsIn witnessFiles) witnessCatalog
      { b1 with RootFS := "" } (by decide)⟩

/-- C5: the catalog after `handleFallbacks` is the sorted input, a rearrangement of the
input, in which position by position an entry whose rootfs file is present is unchanged
and an entry whose rootfs file is absent differs in `RootFS` at most; the length is
kept. -/
theorem c5_frame (sortFn : List KernelInfo → List KernelInfo)
    (hs : SortsReverseByRootFS sortFn) (fileExists : String → Bool)
    (kernels : List KernelInfo) :
    (sortFn kernels).Perm kernels ∧
    (handleFallbacks sortFn fileExists kernels).length = kernels.length ∧
    List.Forall₂
      (fun i o => (fileExists i.RootFS = true → o = i) ∧
        (fileExists i.RootFS = false →
          o.DistroType = i.DistroType ∧ o.DistroRelease = i.DistroRelease ∧
          o.KernelRelease = i.KernelRelease ∧ o.KernelPath = i.KernelPath))
      (sortFn kernels) (handleFallbacks sortFn fileExists kernels) := by
  obtain ⟨hperm, hsorted⟩ := hs kernels
  rw [handleFallbacks, handleFallbacksLoop_sorted fileExists _ hsorted]
  refine ⟨hperm, by simpa using hperm.length_eq, ?_⟩
  apply forall2_map_self
  intro e _
  constructor
  · intro hfe; simp [resolveAgainst, hfe]
  · intro hfe; simp [resolveAgainst, hfe]

/-- C5 at the insertion sort and the catalog of the spec's example. -/
theorem c5_frame_witness :
    SortsReverseByRootFS sortReverseByRootFS ∧
    (sortReverseByRootFS witnessCatalog).Perm witnessCatalog ∧
    (handleFallbacks sortReverseByRootFS (existsIn witnessFiles) witnessCatalog).length =
      witnessCatalog.length ∧
    List.Forall₂
      (fun i o => (existsIn witnessFiles i.RootFS = true → o = i) ∧
        (existsIn witnessFiles i.RootFS = false →
          o.DistroType = i.DistroType ∧ o.DistroRelease = i.DistroRelease ∧
          o.KernelRelease = i.KernelRelease ∧ o.KernelPath = i.KernelPath))
      (sortReverseByRootFS witnessCatalog)
      (handleFallbacks sortReverseByRootFS (existsIn witnessFiles) witnessCatalog) :=
  ⟨sortReverseByRootFS_spec,
    c5_frame sortReverseByRootFS sortReverseByRootFS_spec (existsIn witnessFiles)
      witnessCatalog⟩

/-- C7, as written, fails: `handleFallbacks` sorts the slice it is given. The catalog
loaded as `[a1, a2]` (both rootfs files present) leaves `handleFallbacks` as `[a2, a1]`:
the entries are unchanged but not in the order in which they were loaded. -/
theorem c7_order_counterexample :
    handleFallbacks sortReverseByRootFS (existsIn witnessFiles) ascendingCatalog = [a2, a1] ∧
    ¬ List.Forall₂ (fun i o => o = { i with RootFS := o.RootFS }) ascendingCatalog
        (handleFallbacks sortReverseByRootFS (existsIn witnessFiles) ascendingCatalog) := by
  have h : handleFallbacks sortReverseByRootFS (existsIn witnessFiles) ascendingCatalog =
      [a2, a1] := by decide
  refine ⟨h, ?_⟩
  rw [h]
  intro hf
  cases hf with
  | cons h1 _ => revert h1; decide

/-- C7, amended: the catalog that leaves `handleFallbacks` holds the loaded entries in the
order the descending sort by `RootFS` gave them: the sorted slice is a rearrangement of
the loaded catalog in which no entry has a smaller path than a later one, and the loop
after the sort changes `RootFS` paths only, never the position of an entry. A catalog
loaded in strictly descending `RootFS` order keeps the order in which it was loaded. -/
theorem c7_order_after_sort (sortFn : List KernelInfo → List KernelInfo)
    (hs : SortsReverseByRootFS sortFn) (fileExists : String → Bool)
    (kernels : List KernelInfo) :
    (sortFn kernels).Perm kernels ∧
    (sortFn kernels).Pairwise (fun a b => b.RootFS ≤ a.RootFS) ∧
    List.Forall₂ (fun i o => o = { i with RootFS := o.RootFS })
      (sortFn kernels) (handleFallbacks sortFn fileExists kernels) ∧
    (kernels.Pairwise (fun a b => b.RootFS < a.RootFS) → sortFn kernels = kernels) := by
  obtain ⟨hperm, hsorted⟩ := hs kernels
  have hle : (sortFn kernels).Pairwise (fun a b => b.RootFS ≤ a.RootFS) :=
    hsorted.imp (fun h => (stringLess_eq_false_iff _ _).mp h)
  refine ⟨hperm, hle, ?_, ?_⟩
  · rw [handleFallbacks, handleFallbacksLoop_sorted fileExists _ hsorted]
    apply forall2_map_self
    intro e _
    by_cases hfe : fileExists e.RootFS = true <;> simp [resolveAgainst, hfe]
  · intro hstrict
    exact descending_unique _ _ hperm hle (hstrict.imp (fun h => le_of_lt h))
      (hstrict.imp (fun h => (ne_of_lt h).symm))

/-- The amended C7 at the insertion sort and the catalog of the spec's example. -/
theorem c7_order_after_sort_witness :
    SortsReverseByRootFS sortReverseByRootFS ∧
    (sortReverseByRootFS witnessCatalog).Perm witnessCatalog ∧
    (sortReverseByRootFS witnessCatalog).Pairwise (fun a b => b.RootFS ≤ a.RootFS) ∧
    List.Forall₂ (fun i o => o = { i with RootFS := o.RootFS })
      (sortReverseByRootFS witnessCatalog)
      (handleFallbacks sortReverseByRootFS (existsIn witnessFiles) witnessCatalog) ∧
    (witnessCatalog.Pairwise (fun a b => b.RootFS < a.RootFS) →
      sortReverseByRootFS witnessCatalog = witnessCatalog) :=
  ⟨sortReverseByRootFS_spec,
    c7_order_after_sort sortReverseByRootFS sortReverseByRootFS_spec
      (existsIn witnessFiles) witnessCatalog⟩

/-- C8, as written, fails in its last part: for an entry whose `RootFS` is the empty path
nothing can match, `findFallback` returns the empty path, and that is `ki.RootFS`. -/
theorem c8_equal_path_counterexample :
    emptyPathCatalog.Pairwise (fun a b => stringLess a.RootFS b.RootFS = false) ∧
    e0 ∈ emptyPathCatalog ∧
    findFallback (existsIn witnessFiles) emptyPathCatalog e0 = e0.RootFS := by
  decide

/-- C8, amended: on a catalog in descending `RootFS` order, with the empty path not an
existing file, `findFallback` returns the greatest `RootFS` among the entries whose file
exists, whose `DistroType` is that of `ki` and whose `RootFS` is below `ki.RootFS`; it
returns the empty string exactly if there is no such entry; a result that is not empty is
below `ki.RootFS`, and the result equals `ki.RootFS` exactly if `ki.RootFS` is the empty
path. In the catalog of the spec's example B@1 resolves to the empty path. -/
theorem c8_findFallback_greatest (fileExists : String → Bool)
    (hempty : fileExists "" = false) (s : List KernelInfo)
    (hs : s.Pairwise (fun a b => stringLess a.RootFS b.RootFS = false))
    (ki : KernelInfo) :
    ((∃ k ∈ s, fileExists k.RootFS = true ∧ k.DistroType = ki.DistroType ∧
        k.RootFS < ki.RootFS) →
      ∃ m ∈ s, fileExists m.RootFS = true ∧ m.DistroType = ki.DistroType ∧
        m.RootFS < ki.RootFS ∧ findFallback fileExists s ki = m.RootFS ∧
        ∀ k ∈ s, fileExists k.RootFS = true → k.DistroType = ki.DistroType →
          k.RootFS < ki.RootFS → k.RootFS ≤ m.RootFS) ∧
    (findFallback fileExists s ki = "" ↔
      ¬ ∃ k ∈ s, fileExists k.RootFS = true ∧ k.DistroType = ki.DistroType ∧
        k.RootFS < ki.RootFS) ∧
    (findFallback fileExists s ki ≠ "" → findFallback fileExists s ki < ki.RootFS) ∧
    (findFallback fileExists s ki = ki.RootFS ↔ ki.RootFS = "") ∧
    findFallback (existsIn witnessFiles) (sortReverseByRootFS witnessCatalog) b1 = "" := by
  have hgreat : (∃ k ∈ s, fileExists k.RootFS = true ∧ k.DistroType = ki.DistroType ∧
        k.RootFS < ki.RootFS) →
      ∃ m ∈ s, fileExists m.RootFS = true ∧ m.DistroType = ki.DistroType ∧
        m.RootFS < ki.RootFS ∧ findFallback fileExists s ki = m.RootFS ∧
        ∀ k ∈ s, fileExists k.RootFS = true → k.DistroType = ki.DistroType →
          k.RootFS < ki.RootFS → k.RootFS ≤ m.RootFS := by
    intro hex
    have hex' : ∃ k ∈ s, candidate fileExists ki k = true := by
      obtain ⟨k, hk, hc⟩ := hex
      exact ⟨k, hk, (candidate_iff _ _ _).mpr hc⟩
    obtain ⟨m, hm, hcm, hres, hmax⟩ := findFallback_greatest fileExists s hs ki hex'
    rw [candidate_iff] at hcm
    exact ⟨m, hm, hcm.1, hcm.2.1, hcm.2.2, hres,
      fun k hk h1 h2 h3 => hmax k hk ((candidate_iff _ _ _).mpr ⟨h1, h2, h3⟩)⟩
  have hnone : (¬ ∃ k ∈ s, fileExists k.RootFS = true ∧ k.DistroType = ki.DistroType ∧
        k.RootFS < ki.RootFS) → findFallback fileExists s ki = "" := by
    intro hno
    apply findFallback_of_no_candidate
    rintro ⟨k, hk, hc⟩
    exact hno ⟨k, hk, (candidate_iff _ _ _).mp hc⟩
  have hbelow : findFallback fileExists s ki ≠ "" →
      findFallback fileExists s ki < ki.RootFS := by
    intro hne
    by_cases hex : ∃ k ∈ s, fileExists k.RootFS = true ∧ k.DistroType = ki.DistroType ∧
        k.RootFS < ki.RootFS
    · obtain ⟨m, _, _, _, hlt, hres, _⟩ := hgreat hex
      rw [hres]; exact hlt
    · exact absurd (hnone hex) hne
  refine ⟨hgreat, ⟨?_, hnone⟩, hbelow, ⟨?_, ?_⟩, by decide⟩
  · intro hres hex
    obtain ⟨m, _, hfm, _, _, hres', _⟩ := hgreat hex
    rw [hres] at hres'
    rw [← hres', hempty] at hfm
    exact Bool.false_ne_true hfm
  · intro heq
    by_contra hne
    have hne' : findFallback fileExists s ki ≠ "" := by rw [heq]; exact hne
    have := hbelow hne'
    rw [heq] at this
    exact lt_irrefl _ this
  · intro hki
    rw [findFallback_of_empty fileExists s ki hki, hki]

/-- The amended C8 at the sorted catalog of the spec's example and the entry A@3. -/
theorem c8_findFallback_greatest_witness :
    existsIn witnessFiles "" = false ∧
    (sortReverseByRootFS witnessCatalog).Pairwise
      (fun a b => stringLess a.RootFS b.RootFS = false) ∧
    findFallback (existsIn witnessFiles) (sortReverseByRootFS witnessCatalog) a3 = "a2.img" ∧
    (findFallback (existsIn witnessFiles) (sortReverseByRootFS witnessCatalog) a3 =
      a3.RootFS ↔ a3.RootFS = "") :=
  ⟨by decide, by decide, by decide,
    (c8_findFallback_greatest (existsIn witnessFiles) (by decide)
      (sortReverseByRootFS witnessCatalog) (by decide) a3).2.2.2.1⟩

/-- C9: the updates `handleFallbacks` makes in place while it iterates do not influence
later lookups: its result is the snapshot resolution, in which every entry with an absent
rootfs gets `findFallback` evaluated against the sorted catalog as it was right after the
sort. -/
theorem c9_in_place_equals_snapshot (sortFn : List KernelInfo → List KernelInfo)
    (hs : SortsReverseByRootFS sortFn) (fileExists : String → Bool)
    (kernels : List KernelInfo) :
    handleFallbacks sortFn fileExists kernels =
      handleFallbacksSnapshot sortFn fileExists kernels := by
  rw [handleFallbacks, handleFallbacksSnapshot]
  exact handleFallbacksLoop_sorted fileExists _ (hs kernels).2

/-- C9 at the insertion sort and the catalog of the spec's example. -/
theorem c9_in_place_equals_snapshot_witness :
    SortsReverseByRootFS sortReverseByRootFS ∧
    handleFallbacks sortReverseByRootFS (existsIn witnessFiles) witnessCatalog =
      handleFallbacksSnapshot sortReverseByRootFS (existsIn witnessFiles) witnessCatalog :=
  ⟨sortReverseByRootFS_spec,
    c9_in_place_equals_snapshot sortReverseByRootFS sortReverseByRootFS_spec
      (existsIn witnessFiles) witnessCatalog⟩

/-- C10: applied to its own result, `handleFallbacks` only sorts again: the loop changes no
field of any entry, so the second result is a rearrangement of the first, and an entry
with the empty `RootFS` is in the second result exactly as it is in the first. -/
theorem c10_idempotent (sortFn : List KernelInfo → List KernelInfo)
    (hs : SortsReverseByRootFS sortFn) (fileExists : String → Bool)
    (kernels : List KernelInfo) :
    handleFallbacks sortFn fileExists (handleFallbacks sortFn fileExists kernels) =
      sortFn (handleFallbacks sortFn fileExists kernels) ∧
    (handleFallbacks sortFn fileExists (handleFallbacks sortFn fileExists kernels)).Perm
      (handleFallbacks sortFn fileExists kernels) ∧
    ∀ k, k.RootFS = "" →
      (handleFallbacks sortFn fileExists (handleFallbacks sortFn fileExists kernels)).count k =
        (handleFallbacks sortFn fileExists kernels).count k := by
  have hperm := (hs (handleFallbacks sortFn fileExists kernels)).1
  have heq : handleFallbacks sortFn fileExists (handleFallbacks sortFn fileExists kernels) =
      sortFn (handleFallbacks sortFn fileExists kernels) := by
    conv_lhs => rw [handleFallbacks]
    rw [handleFallbacksLoop_of_settled fileExists _ []]
    · rfl
    · intro k hk
      exact handleFallbacks_exists_or_empty sortFn fileExists kernels k (hperm.mem_iff.mp hk)
  refine ⟨heq, heq ▸ hperm, ?_⟩
  intro k _
  rw [heq]
  exact hperm.count_eq k

/-- C10 at the insertion sort and the catalog of the spec's example. -/
theorem c10_idempotent_witness :
    SortsReverseByRootFS sortReverseByRootFS ∧
    (handleFallbacks sortReverseByRootFS (existsIn witnessFiles)
      (handleFallbacks sortReverseByRootFS (existsIn witnessFiles) witnessCatalog)).Perm
      (handleFallbacks sortReverseByRootFS (existsIn witnessFiles) witnessCatalog) :=
  ⟨sortReverseByRootFS_spec,
    (c10_idempotent sortReverseByRootFS sortReverseByRootFS_spec
      (existsIn witnessFiles) witnessCatalog).2.1⟩

/-! ## The merge loop -/

theorem mergeUserKernels_cons (hasKernel : KernelInfo → List KernelInfo → Bool)
    (kcfg : List KernelInfo) (nk : KernelInfo) (user : List KernelInfo) :
    mergeUserKernels hasKernel kcfg (nk :: user) =
      mergeUserKernels hasKernel (if hasKernel nk kcfg then kcfg else kcfg ++ [nk]) user := by
  cases h : hasKernel nk kcfg <;> simp [mergeUserKernels, h]

theorem mergeUserKernels_append (hasKernel : KernelInfo → List KernelInfo → Bool)
    (kcfg u1 u2 : List KernelInfo) :
    mergeUserKernels hasKernel kcfg (u1 ++ u2) =
      mergeUserKernels hasKernel (mergeUserKernels hasKernel kcfg u1) u2 := by
  simp [mergeUserKernels, List.foldl_append]

/-- The merged catalog is the primary catalog followed by a sublist of the user
catalog. -/
theorem mergeUserKernels_eq_append (hasKernel : KernelInfo → List KernelInfo → Bool) :
    ∀ (user kcfg : List KernelInfo),
      ∃ added, mergeUserKernels hasKernel kcfg user = kcfg ++ added ∧ added.Sublist user := by
  intro user
  induction user with
  | nil => intro kcfg; exact ⟨[], by simp [mergeUserKernels], List.Sublist.refl _⟩
  | cons nk rest ih =>
    intro kcfg
    rw [mergeUserKernels_cons]
    cases h : hasKernel nk kcfg
    · obtain ⟨added, hadd, hsub⟩ := ih (kcfg ++ [nk])
      refine ⟨nk :: added, ?_, hsub.cons₂ nk⟩
      simpa using hadd
    · obtain ⟨added, hadd, hsub⟩ := ih kcfg
      exact ⟨added, by simpa using hadd, hsub.cons nk⟩

theorem mergeUserKernels_nodup (hasKernel : KernelInfo → List KernelInfo → Bool)
    (hk : ∀ k c, k ∈ c → hasKernel k c = true) :
    ∀ (user kcfg : List KernelInfo), kcfg.Nodup →
      (mergeUserKernels hasKernel kcfg user).Nodup := by
  intro user
  induction user with
  | nil => intro kcfg h; simpa [mergeUserKernels] using h
  | cons nk rest ih =>
    intro kcfg h
    rw [mergeUserKernels_cons]
    cases hh : hasKernel nk kcfg
    · have hnot : nk ∉ kcfg := fun hmem => by simp [hk nk kcfg hmem] at hh
      simp only [Bool.false_eq_true, if_false]
      refine ih _ ?_
      rw [List.nodup_append]
      refine ⟨h, List.nodup_singleton nk, ?_⟩
      intro x hx hx'
      rw [List.mem_singleton] at hx'
      exact hnot (hx' ▸ hx)
    · simpa using ih kcfg h

/-- C2: the merge loop keeps the primary catalog as an unchanged prefix and appends a
sublist of the user catalog, in the user catalog's order; at every entry `nk` of the user
catalog the catalog built so far stays a prefix of the result and `nk` is appended right
behind it exactly if `hasKernel` is false against the catalog built so far; an entry that
is in the catalog built so far is not appended, so a catalog without repeated entries
stays without repeated entries. `hasKernel` is any function that holds for an entry that
is in the catalog. -/
theorem c2_merge_appends_new_entries (hasKernel : KernelInfo → List KernelInfo → Bool)
    (hk : ∀ k c, k ∈ c → hasKernel k c = true) (kcfg user : List KernelInfo) :
    kcfg <+: mergeUserKernels hasKernel kcfg user ∧
    ((mergeUserKernels hasKernel kcfg user).drop kcfg.length).Sublist user ∧
    (∀ u1 nk u2, user = u1 ++ nk :: u2 →
      mergeUserKernels hasKernel kcfg (u1 ++ [nk]) <+: mergeUserKernels hasKernel kcfg user ∧
      mergeUserKernels hasKernel kcfg (u1 ++ [nk]) =
        (if hasKernel nk (mergeUserKernels hasKernel kcfg u1)
          then mergeUserKernels hasKernel kcfg u1
          else mergeUserKernels hasKernel kcfg u1 ++ [nk]) ∧
      (nk ∈ mergeUserKernels hasKernel kcfg u1 →
        mergeUserKernels hasKernel kcfg (u1 ++ [nk]) = mergeUserKernels hasKernel kcfg u1)) ∧
    (kcfg.Nodup → (mergeUserKernels hasKernel kcfg user).Nodup) := by
  obtain ⟨added, hadd, hsub⟩ := mergeUserKernels_eq_append hasKernel user kcfg
  have hstep : ∀ u1 nk, mergeUserKernels hasKernel kcfg (u1 ++ [nk]) =
      (if hasKernel nk (mergeUserKernels hasKernel kcfg u1)
        then mergeUserKernels hasKernel kcfg u1
        else mergeUserKernels hasKernel kcfg u1 ++ [nk]) := by
    intro u1 nk
    rw [mergeUserKernels_append, mergeUserKernels_cons]
    simp [mergeUserKernels]
  refine ⟨⟨added, hadd.symm⟩, ?_, ?_, mergeUserKernels_nodup hasKernel hk user kcfg⟩
  · rw [hadd]; simpa using hsub
  · intro u1 nk u2 hsplit
    refine ⟨?_, hstep u1 nk, ?_⟩
    · have hassoc : user = (u1 ++ [nk]) ++ u2 := by simp [hsplit]
      obtain ⟨added', hadd', _⟩ := mergeUserKernels_eq_append hasKernel u2
        (mergeUserKernels hasKernel kcfg (u1 ++ [nk]))
      rw [hassoc, mergeUserKernels_append hasKernel kcfg (u1 ++ [nk]) u2]
      exact ⟨added', hadd'.symm⟩
    · intro hmem
      rw [hstep u1 nk, hk nk _ hmem]
      simp

theorem hasKernelByKey_of_mem (k : KernelInfo) (c : List KernelInfo) (h : k ∈ c) :
    hasKernelByKey k c = true := by
  simp only [hasKernelByKey, List.any_eq_true]
  exact ⟨k, h, by simp⟩

/-- C2 with `hasKernel` by identity key: merging `userCatalog` into the catalog of the
spec's example appends `a4` once. -/
theorem c2_merge_appends_new_entries_witness :
    (∀ k c, k ∈ c → hasKernelByKey k c = true) ∧
    mergeUserKernels hasKernelByKey witnessCatalog userCatalog = witnessCatalog ++ [a4] ∧
    witnessCatalog <+: mergeUserKernels hasKernelByKey witnessCatalog userCatalog :=
  ⟨hasKernelByKey_of_mem, by decide,
    (c2_merge_appends_new_entries hasKernelByKey hasKernelByKey_of_mem witnessCatalog
      userCatalog).1⟩

/-! ## The exit status -/

/-- C3: with rate and threshold as exact numbers, the process ends with a failure status
exactly if the dispatched handler returned an error or the rate is below the threshold; a
rate equal to the threshold passes; with the default threshold a successful handler fails
exactly for the rates below 1; `Gate(0.7, 1.0)` fails and `Gate(0.7, 0.5)` passes. -/
theorem c3_exit_status (err : Option String) (rate threshold : ℚ) :
    (exitStatus (finish err rate threshold) ≠ 0 ↔ (err.isSome = true ∨ rate < threshold)) ∧
    exitStatus (finish none threshold threshold) = 0 ∧
    (exitStatus (finish none rate defaultThreshold) ≠ 0 ↔ rate < 1) ∧
    exitStatus (finish none (7 / 10) 1) = 1 ∧
    exitStatus (finish none (7 / 10) (1 / 2)) = 0 := by
  refine ⟨?_, ?_, ?_, ?_, ?_⟩
  · cases err with
    | some e => simp [finish, exitStatus]
    | none =>
      by_cases h : rate < threshold <;> simp [finish, exitStatus, h]
  · simp [finish, exitStatus]
  · by_cases h : rate < 1 <;> simp [finish, exitStatus, defaultThreshold, h]
  · have h : (7 / 10 : ℚ) < 1 := by norm_num
    simp only [finish, if_pos h, exitStatus]
  · have h : ¬ (7 / 10 : ℚ) < 1 / 2 := by norm_num
    simp only [finish, if_neg h, exitStatus]

/-! ## Reading the kernel configs -/

theorem reachesResolution_append (t u : List Event) :
    reachesResolution (t ++ u) = (reachesResolution t || reachesResolution u) := by
  simp [reachesResolution]

theorem reachesDispatch_append (t u : List Event) :
    reachesDispatch (t ++ u) = (reachesDispatch t || reachesDispatch u) := by
  simp [reachesDispatch]

theorem reachesDispatch_finish (err : Option String) (rate threshold : ℚ) :
    reachesDispatch (finish err rate threshold) = false := by
  cases err with
  | some e => simp [finish, reachesDispatch]
  | none => by_cases h : rate < threshold <;> simp [finish, reachesDispatch, h]

/-- C6, as written, fails: in `brokenMainConfigEnv` reading the main kernels config fails
and there is no user kernels config, yet `main` prints the error, runs `handleFallbacks`
and dispatches the handler, and the process ends with status 0. -/
theorem c6_main_config_counterexample :
    brokenMainConfigEnv.mainRead.err.isSome = true ∧
    brokenMainConfigEnv.userExists = false ∧
    mainFromConfig sortReverseByRootFS (existsIn witnessFiles) hasKernelByKey
        brokenMainConfigEnv =
      [Event.logPrintln "open kernels.toml: no such file or directory",
       Event.resolved [], Event.dispatched []] ∧
    reachesResolution (mainFromConfig sortReverseByRootFS (existsIn witnessFiles)
      hasKernelByKey brokenMainConfigEnv) = true ∧
    reachesDispatch (mainFromConfig sortReverseByRootFS (existsIn witnessFiles)
      hasKernelByKey brokenMainConfigEnv) = true ∧
    exitStatus (mainFromConfig sortReverseByRootFS (existsIn witnessFiles)
      hasKernelByKey brokenMainConfigEnv) = 0 := by
  have h : mainFromConfig sortReverseByRootFS (existsIn witnessFiles) hasKernelByKey
        brokenMainConfigEnv =
      [Event.logPrintln "open kernels.toml: no such file or directory",
       Event.resolved [], Event.dispatched []] := by
    simp [mainFromConfig, mainResolveAndDispatch, brokenMainConfigEnv, finish,
      defaultThreshold, handleFallbacks, handleFallbacksLoop, sortReverseByRootFS]
  rw [h]
  exact ⟨rfl, rfl, rfl, rfl, rfl, rfl⟩

/-- The end of `main` prints nothing with `log.Println`, resolves nothing and dispatches
nothing. -/
theorem finish_events (err : Option String) (rate threshold : ℚ) :
    (∀ m, Event.logPrintln m ∉ finish err rate threshold) ∧
    (∀ ks, Event.resolved ks ∉ finish err rate threshold) ∧
    (∀ ks, Event.dispatched ks ∉ finish err rate threshold) := by
  cases err with
  | some e => simp [finish]
  | none => by_cases h : rate < threshold <;> simp [finish, h]

/-- C6, amended. (1) `main` reaches fallback resolution exactly if the user kernels config
does not exist or was read without error, (2) it dispatches a handler exactly if moreover
the database opened, and (3) when the user kernels config exists and reading it fails the
process ends with status 1. (4) An error of reading the main kernels config is printed
with `log.Println`, nothing else is, and (5) it is the first thing that happens.
(6) When the user kernels config exists and reading it fails, `log.Fatalln` follows the
printed error at once: nothing is resolved and nothing dispatched. (7) The catalog that
is resolved is the catalog the reader of the main kernels config returned, failed or not,
merged with the user catalog if that was read, and (8) the handler gets the resolved
catalog. (9, 10) Otherwise the run is: the printed error if any, the resolution, then
`log.Fatalln` if the database did not open, else the dispatch and the end of `main`. -/
theorem c6_abort_on_user_config (sortFn : List KernelInfo → List KernelInfo)
    (fileExists : String → Bool) (hasKernel : KernelInfo → List KernelInfo → Bool)
    (env : Env) :
    (reachesResolution (mainFromConfig sortFn fileExists hasKernel env) = true ↔
      (env.userExists = false ∨ env.userRead.err = none)) ∧
    (reachesDispatch (mainFromConfig sortFn fileExists hasKernel env) = true ↔
      ((env.userExists = false ∨ env.userRead.err = none) ∧ env.dbErr = none)) ∧
    (env.userExists = false ∨ env.userRead.err = none ∨
      exitStatus (mainFromConfig sortFn fileExists hasKernel env) = 1) ∧
    (∀ m, Event.logPrintln m ∈ mainFromConfig sortFn fileExists hasKernel env ↔
      env.mainRead.err = some m) ∧
    (∀ m, env.mainRead.err = some m →
      (mainFromConfig sortFn fileExists hasKernel env).head? = some (Event.logPrintln m)) ∧
    (∀ e, env.userExists = true → env.userRead.err = some e →
      mainFromConfig sortFn fileExists hasKernel env =
        env.mainRead.err.toList.map Event.logPrintln ++ [Event.logFatalln e]) ∧
    (∀ ks, Event.resolved ks ∈ mainFromConfig sortFn fileExists hasKernel env ↔
      ((env.userExists = false ∨ env.userRead.err = none) ∧
        ks = handleFallbacks sortFn fileExists
          (if env.userExists then
            mergeUserKernels hasKernel env.mainRead.kcfg env.userRead.kcfg
          else env.mainRead.kcfg))) ∧
    (∀ ks, Event.dispatched ks ∈ mainFromConfig sortFn fileExists hasKernel env ↔
      ((env.userExists = false ∨ env.userRead.err = none) ∧ env.dbErr = none ∧
        ks = handleFallbacks sortFn fileExists
          (if env.userExists then
            mergeUserKernels hasKernel env.mainRead.kcfg env.userRead.kcfg
          else env.mainRead.kcfg))) ∧
    (∀ d, (env.userExists = false ∨ env.userRead.err = none) → env.dbErr = some d →
      mainFromConfig sortFn fileExists hasKernel env =
        env.mainRead.err.toList.map Event.logPrintln ++
          [Event.resolved (handleFallbacks sortFn fileExists
            (if env.userExists then
              mergeUserKernels hasKernel env.mainRead.kcfg env.userRead.kcfg
            else env.mainRead.kcfg)),
           Event.logFatalln d]) ∧
    ((env.userExists = false ∨ env.userRead.err = none) → env.dbErr = none →
      mainFromConfig sortFn fileExists hasKernel env =
        env.mainRead.err.toList.map Event.logPrintln ++
          Event.resolved (handleFallbacks sortFn fileExists
            (if env.userExists then
              mergeUserKernels hasKernel env.mainRead.kcfg env.userRead.kcfg
            else env.mainRead.kcfg)) ::
          Event.dispatched (handleFallbacks sortFn fileExists
            (if env.userExists then
              mergeUserKernels hasKernel env.mainRead.kcfg env.userRead.kcfg
            else env.mainRead.kcfg)) ::
          finish (env.handlerErr (handleFallbacks sortFn fileExists
            (if env.userExists then
              mergeUserKernels hasKernel env.mainRead.kcfg env.userRead.kcfg
            else env.mainRead.kcfg))) env.rate env.threshold) := by
  have hP1 : ∀ m, Event.logPrintln m ∈ env.mainRead.err.toList.map Event.logPrintln ↔
      env.mainRead.err = some m := by
    intro m; cases env.mainRead.err <;> simp [eq_comm]
  have hP2 : ∀ ks, Event.resolved ks ∉ env.mainRead.err.toList.map Event.logPrintln := by
    intro ks; cases env.mainRead.err <;> simp
  have hP3 : ∀ ks, Event.dispatched ks ∉ env.mainRead.err.toList.map Event.logPrintln := by
    intro ks; cases env.mainRead.err <;> simp
  have hP4 : reachesResolution (env.mainRead.err.toList.map Event.logPrintln) = false := by
    cases env.mainRead.err <;> simp [reachesResolution]
  have hP5 : reachesDispatch (env.mainRead.err.toList.map Event.logPrintln) = false := by
    cases env.mainRead.err <;> simp [reachesDispatch]
  have hP6 : ∀ t, exitStatus (env.mainRead.err.toList.map Event.logPrintln ++ t) =
      exitStatus t := by
    intro t; cases env.mainRead.err <;> simp [exitStatus]
  have hP7 : ∀ m t, env.mainRead.err = some m →
      (env.mainRead.err.toList.map Event.logPrintln ++ t).head? =
        some (Event.logPrintln m) := by
    intro m t h; rw [h]; rfl
  have hmain : ∀ kcfg, mainResolveAndDispatch sortFn fileExists env kcfg =
      Event.resolved (handleFallbacks sortFn fileExists kcfg) ::
        (match env.dbErr with
         | some e => [Event.logFatalln e]
         | none => Event.dispatched (handleFallbacks sortFn fileExists kcfg) ::
             finish (env.handlerErr (handleFallbacks sortFn fileExists kcfg))
               env.rate env.threshold) := fun _ => rfl
  have hR1 : ∀ kcfg ks,
      Event.resolved ks ∈ mainResolveAndDispatch sortFn fileExists env kcfg ↔
      ks = handleFallbacks sortFn fileExists kcfg := by
    intro kcfg ks
    rw [hmain]
    cases env.dbErr <;> simp [(finish_events _ _ _).2.1]
  have hR2 : ∀ kcfg ks,
      Event.dispatched ks ∈ mainResolveAndDispatch sortFn fileExists env kcfg ↔
        (env.dbErr = none ∧ ks = handleFallbacks sortFn fileExists kcfg) := by
    intro kcfg ks
    rw [hmain]
    cases env.dbErr <;> simp [(finish_events _ _ _).2.2]
  have hR3 : ∀ kcfg m,
      Event.logPrintln m ∉ mainResolveAndDispatch sortFn fileExists env kcfg := by
    intro kcfg m
    rw [hmain]
    cases env.dbErr <;> simp [(finish_events _ _ _).1]
  have hR4 : ∀ kcfg, reachesResolution (mainResolveAndDispatch sortFn fileExists env kcfg) =
      true := by
    intro kcfg; simp [hmain, reachesResolution]
  have hR5 : ∀ kcfg, reachesDispatch (mainResolveAndDispatch sortFn fileExists env kcfg) =
      true ↔ env.dbErr = none := by
    intro kcfg
    rw [hmain]
    cases env.dbErr <;> simp [reachesDispatch]
  cases hu : env.userExists with
  | false =>
    have htrace : mainFromConfig sortFn fileExists hasKernel env =
        env.mainRead.err.toList.map Event.logPrintln ++
          mainResolveAndDispatch sortFn fileExists env env.mainRead.kcfg := by
      simp only [mainFromConfig, hu, Bool.false_eq_true, if_false]
      cases env.mainRead.err <;> rfl
    rw [htrace]
    simp only [Bool.false_eq_true, if_false]
    refine ⟨?_, ?_, ?_, ?_, ?_, ?_, ?_, ?_, ?_, ?_⟩
    · simp [reachesResolution_append, hP4, hR4]
    · simp [reachesDispatch_append, hP5, hR5]
    · exact Or.inl trivial
    · intro m; simp [List.mem_append, hP1, hR3]
    · intro m h; exact hP7 m _ h
    · intro e h; exact absurd h (by simp)
    · intro ks; simp [List.mem_append, hP2, hR1]
    · intro ks; simp [List.mem_append, hP3, hR2]
    · intro d _ hdb; rw [hmain, hdb]
    · intro _ hdb; rw [hmain, hdb]
  | true =>
    cases hr : env.userRead.err with
    | none =>
      have htrace : mainFromConfig sortFn fileExists hasKernel env =
          env.mainRead.err.toList.map Event.logPrintln ++
            mainResolveAndDispatch sortFn fileExists env
              (mergeUserKernels hasKernel env.mainRead.kcfg env.userRead.kcfg) := by
        simp only [mainFromConfig, hu, hr, if_true]
        cases env.mainRead.err <;> rfl
      rw [htrace]
      simp only [if_true]
      refine ⟨?_, ?_, ?_, ?_, ?_, ?_, ?_, ?_, ?_, ?_⟩
      · simp [reachesResolution_append, hP4, hR4]
      · simp [reachesDispatch_append, hP5, hR5]
      · exact Or.inr (Or.inl trivial)
      · intro m; simp [List.mem_append, hP1, hR3]
      · intro m h; exact hP7 m _ h
      · intro e _ h; exact absurd h (by simp)
      · intro ks; simp [List.mem_append, hP2, hR1]
      · intro ks; simp [List.mem_append, hP3, hR2]
      · intro d _ hdb; rw [hmain, hdb]
      · intro _ hdb; rw [hmain, hdb]
    | some e =>
      have htrace : mainFromConfig sortFn fileExists hasKernel env =
          env.mainRead.err.toList.map Event.logPrintln ++ [Event.logFatalln e] := by
        simp only [mainFromConfig, hu, hr, if_true]
        cases env.mainRead.err <;> rfl
      rw [htrace]
      simp only [if_true]
      refine ⟨?_, ?_, ?_, ?_, ?_, ?_, ?_, ?_, ?_, ?_⟩
      · simp [reachesResolution_append, hP4, reachesResolution]
      · simp [reachesDispatch_append, hP5, reachesDispatch]
      · right; right; rw [hP6]; rfl
      · intro m; simp [List.mem_append, hP1]
      · intro m h; exact hP7 m _ h
      · intro e' _ h; cases h; rfl
      · intro ks; simp [List.mem_append, hP2]
      · intro ks; simp [List.mem_append, hP3]
      · intro d h _; simp at h
      · intro h _; simp at h

/-- The amended C6 at `partialMainConfigEnv`: the failed read of the main kernels config
returned `[a2]`; the error is printed, and the catalog handed to the handler is `[a2]`
merged with the user catalog and resolved: `a4`, whose rootfs is absent, with the rootfs
of `a2`, then `a2`. -/
theorem c6_abort_on_user_config_witness :
    partialMainConfigEnv.mainRead.err = some "kernels.toml: unexpected end of file" ∧
    Event.logPrintln "kernels.toml: unexpected end of file" ∈
      mainFromConfig sortReverseByRootFS (existsIn witnessFiles) hasKernelByKey
        partialMainConfigEnv ∧
    Event.dispatched [{ a4 with RootFS := a2.RootFS }, a2] ∈
      mainFromConfig sortReverseByRootFS (existsIn witnessFiles) hasKernelByKey
        partialMainConfigEnv :=
  ⟨rfl,
    ((c6_abort_on_user_config sortReverseByRootFS (existsIn witnessFiles) hasKernelByKey
      partialMainConfigEnv).2.2.2.1 _).mpr rfl,
    ((c6_abort_on_user_config sortReverseByRootFS (existsIn witnessFiles) hasKernelByKey
      partialMainConfigEnv).2.2.2.2.2.2.2.1 _).mpr ⟨Or.inr rfl, rfl, by decide⟩⟩

end OutOfTree
